import Mathlib

/-!
# Verification of the Bayesian-network sampling engine (`bayes_fever.py`)

Shallow embedding of the sampling engine: `BooleanVariableNode` with its
conditional probability table (CPT), the forward-sampling loop of
`SimpleSampler`, the filtering of `RejectionSampler`, and the
evidence-forcing loop of `LikelihoodWeightingSampler`.

Modelling conventions:
* Python `float` probabilities become `ℚ`.
* `random.random()` becomes an explicit stream `rng : Nat → ℚ`; the state
  carries the index of the next draw, so the number of draws consumed is
  observable.
* Python dictionaries become association lists with insertion-order
  semantics (`dictInsert` overwrites in place or appends a fresh key).
* A Python exception (`KeyError`, `ZeroDivisionError`) becomes an
  `Except PyError` result.  The unbounded `while` loop is run with an
  explicit number of passes (`fuel`); exhausting the fuel while the loop
  condition still holds is reported as `PyError.nonTermination`, meaning
  the source loop would still be running at that point.
-/

deriving instance DecidableEq for Except

namespace BayesFever

/-- Python exceptions observable from the sampler, plus the marker that the
`while` loop is still running after the given number of passes. -/
inductive PyError where
  | keyNotFound
  | zeroDivision
  | nonTermination
  deriving DecidableEq, Repr

/-- A Python dict `{variable name ↦ bool}` as an insertion-ordered
association list with unique keys (maintained by `dictInsert`). -/
abbrev Dict := List (String × Bool)

/-- Key membership, `k in d` on a Python dict. -/
def dictMem (d : Dict) (k : String) : Bool :=
  d.any fun kv => decide (kv.1 = k)

/-- Python dict assignment `d[k] = v`: overwrite the entry in place when the
key is present, append a fresh entry otherwise. -/
def dictInsert (d : Dict) (k : String) (v : Bool) : Dict :=
  if dictMem d k then d.map fun kv => if kv.1 = k then (k, v) else kv
  else d ++ [(k, v)]

/-- `BooleanVariableNode` of the source: variable name, parent names in CPT
key order, and the CPT keyed by tuples of parent values. -/
structure BooleanVariableNode where
  target : String
  parents : List String
  cpt : List (List Bool × ℚ)
  deriving DecidableEq, Repr

/-- `get_prob_true`: exact-match CPT lookup; `none` is the `KeyError` of
`self.cpt[key]` on an absent parent-value combination. -/
def BooleanVariableNode.get_prob_true (node : BooleanVariableNode)
    (parent_vals : List Bool) : Option ℚ :=
  node.cpt.lookup parent_vals

/-- `get_prob_false`: `1.0 - self.get_prob_true(parent_vals)`, always derived,
never stored. -/
def BooleanVariableNode.get_prob_false (node : BooleanVariableNode)
    (parent_vals : List Bool) : Option ℚ :=
  (node.get_prob_true parent_vals).map fun p => 1 - p

/-- The source guard `node not in sample_vals` tests membership of the node
OBJECT among the dictionary's STRING keys.  A `BooleanVariableNode` compares
unequal to every string key, so each per-key comparison is `false`. -/
def strEqNode (_s : String) (_node : BooleanVariableNode) : Bool :=
  false

/-- `node not in sample_vals` as written in the source: negated membership of
the node object among the string keys (hence always `true`). -/
def node_not_in_sample (node : BooleanVariableNode) (d : Dict) : Bool :=
  !(d.any fun kv => strEqNode kv.1 node)

/-- `all([p in sample_vals for p in parent_vars])`. -/
def allParentsAssigned (d : Dict) (ps : List String) : Bool :=
  ps.all fun p => dictMem d p

/-- `tuple([sample_vals[par] for par in parent_vars])`, left to right; `none`
is the `KeyError` raised when a parent has no value yet (dead code under the
guard `allParentsAssigned`). -/
def parentVals (d : Dict) : List String → Option (List Bool)
  | [] => some []
  | p :: ps =>
    match d.lookup p, parentVals d ps with
    | some b, some bs => some (b :: bs)
    | _, _ => none

/-- `random.random() < prob_true`: the Bernoulli draw at stream index `i`. -/
def drawValue (rng : Nat → ℚ) (i : Nat) (p : ℚ) : Bool :=
  decide (rng i < p)

/-- State of `SimpleSampler.generate_sample`: the partial assignment and the
index of the next random draw. -/
structure SimpleState where
  sample_vals : Dict
  idx : Nat
  deriving DecidableEq, Repr

/-- One iteration of the inner `for node in self.nodes` body of
`SimpleSampler.generate_sample`. -/
def simpleStep (rng : Nat → ℚ) (node : BooleanVariableNode)
    (st : SimpleState) : Except PyError SimpleState :=
  if node_not_in_sample node st.sample_vals then
    if allParentsAssigned st.sample_vals node.parents then
      match parentVals st.sample_vals node.parents with
      | none => .error .keyNotFound
      | some pv =>
        match node.get_prob_true pv with
        | none => .error .keyNotFound
        | some p =>
          .ok ⟨dictInsert st.sample_vals node.target (drawValue rng st.idx p),
               st.idx + 1⟩
    else .ok st
  else .ok st

/-- One full pass of the `for node in self.nodes` loop. -/
def simplePass (rng : Nat → ℚ) :
    List BooleanVariableNode → SimpleState → Except PyError SimpleState
  | [], st => .ok st
  | node :: rest, st =>
    match simpleStep rng node st with
    | .error e => .error e
    | .ok st' => simplePass rng rest st'

/-- The `while len(sample_vals) < len(self.nodes)` loop, run for at most
`fuel` passes. -/
def simpleLoop (rng : Nat → ℚ) (nodes : List BooleanVariableNode) :
    Nat → SimpleState → Except PyError SimpleState
  | 0, st =>
    if st.sample_vals.length < nodes.length then .error .nonTermination
    else .ok st
  | fuel + 1, st =>
    if st.sample_vals.length < nodes.length then
      match simplePass rng nodes st with
      | .error e => .error e
      | .ok st' => simpleLoop rng nodes fuel st'
    else .ok st

/-- `SimpleSampler.generate_sample`, starting from the empty assignment with
the next random draw at index `i0`. -/
def SimpleSampler.generate_sample (rng : Nat → ℚ)
    (nodes : List BooleanVariableNode) (fuel i0 : Nat) :
    Except PyError SimpleState :=
  simpleLoop rng nodes fuel ⟨[], i0⟩

/-- `SimpleSampler.generate_samples(n)`: `n` samples drawn in order, threading
the random stream; returns the samples and the final stream index. -/
def SimpleSampler.generate_samples (rng : Nat → ℚ)
    (nodes : List BooleanVariableNode) (fuel : Nat) :
    Nat → Nat → Except PyError (List Dict × Nat)
  | 0, i => .ok ([], i)
  | n + 1, i =>
    match SimpleSampler.generate_sample rng nodes fuel i with
    | .error e => .error e
    | .ok st =>
      match SimpleSampler.generate_samples rng nodes fuel n st.idx with
      | .error e => .error e
      | .ok (rest, iFin) => .ok (st.sample_vals :: rest, iFin)

/-- `k in dictionary and dictionary[k] == v`, for every query entry. -/
def queryMatches (query : Dict) (s : Dict) : Bool :=
  query.all fun kv =>
    dictMem s kv.1 &&
      match s.lookup kv.1 with
      | some b => b == kv.2
      | none => false

/-- The counting loop shared by the `get_prob` methods:
`for dictionary in samples: if ... : count += 1`. -/
def countLoop (query : Dict) (samples : List Dict) : Nat :=
  samples.foldl (fun c s => if queryMatches query s then c + 1 else c) 0

/-- `SimpleSampler.get_prob(query_vals, num_samples)`:
`count / num_samples`, a `ZeroDivisionError` when `num_samples` is `0`. -/
def SimpleSampler.get_prob (rng : Nat → ℚ) (nodes : List BooleanVariableNode)
    (fuel : Nat) (query_vals : Dict) (num_samples i0 : Nat) :
    Except PyError ℚ :=
  match SimpleSampler.generate_samples rng nodes fuel num_samples i0 with
  | .error e => .error e
  | .ok (samples, _) =>
    if num_samples = 0 then .error .zeroDivision
    else .ok ((countLoop query_vals samples : ℚ) / (num_samples : ℚ))

/-- `sample.get(var, None) == val`, for every evidence entry: an absent key
yields `None`, which equals no boolean. -/
def evMatches (evidence_vals : Dict) (s : Dict) : Bool :=
  evidence_vals.all fun kv =>
    match s.lookup kv.1 with
    | some b => b == kv.2
    | none => false

/-- `RejectionSampler.generate_samples(n, evidence_vals)`: `n` unconditioned
forward samples, keeping those that agree with every evidence entry. -/
def RejectionSampler.generate_samples (rng : Nat → ℚ)
    (nodes : List BooleanVariableNode) (fuel n : Nat) (evidence_vals : Dict)
    (i0 : Nat) : Except PyError (List Dict × Nat) :=
  match SimpleSampler.generate_samples rng nodes fuel n i0 with
  | .error e => .error e
  | .ok (unfiltered, iFin) =>
    .ok (unfiltered.filter (fun s => evMatches evidence_vals s), iFin)

/-- `RejectionSampler.get_prob(query_vals, evidence_vals, num_samples)`:
`count / len(samples)` over the surviving samples; dividing by zero surviving
samples raises `ZeroDivisionError`. -/
def RejectionSampler.get_prob (rng : Nat → ℚ)
    (nodes : List BooleanVariableNode) (fuel : Nat)
    (query_vals evidence_vals : Dict) (num_samples i0 : Nat) :
    Except PyError ℚ :=
  match RejectionSampler.generate_samples rng nodes fuel num_samples
      evidence_vals i0 with
  | .error e => .error e
  | .ok (samples, _) =>
    if samples.length = 0 then .error .zeroDivision
    else .ok ((countLoop query_vals samples : ℚ) / (samples.length : ℚ))

/-- State of `LikelihoodWeightingSampler.generate_sample`: partial assignment,
running weight, and next random-draw index. -/
structure LwState where
  sample_vals : Dict
  weight : ℚ
  idx : Nat
  deriving DecidableEq, Repr

/-- One iteration of the inner `for node in self.nodes` body of
`LikelihoodWeightingSampler.generate_sample`: an evidence variable is forced
to its evidence value and the weight is multiplied by the matching
likelihood; any other variable is drawn from the CPT. -/
def lwStep (rng : Nat → ℚ) (evidence_vals : Dict) (node : BooleanVariableNode)
    (st : LwState) : Except PyError LwState :=
  if node_not_in_sample node st.sample_vals then
    if allParentsAssigned st.sample_vals node.parents then
      match parentVals st.sample_vals node.parents with
      | none => .error .keyNotFound
      | some pv =>
        match evidence_vals.lookup node.target with
        | some val =>
          match (if val then node.get_prob_true pv
                 else node.get_prob_false pv) with
          | none => .error .keyNotFound
          | some p =>
            .ok ⟨dictInsert st.sample_vals node.target val,
                 st.weight * p, st.idx⟩
        | none =>
          match node.get_prob_true pv with
          | none => .error .keyNotFound
          | some p =>
            .ok ⟨dictInsert st.sample_vals node.target (drawValue rng st.idx p),
                 st.weight, st.idx + 1⟩
    else .ok st
  else .ok st

/-- One full pass of the evidence-aware `for node in self.nodes` loop. -/
def lwPass (rng : Nat → ℚ) (evidence_vals : Dict) :
    List BooleanVariableNode → LwState → Except PyError LwState
  | [], st => .ok st
  | node :: rest, st =>
    match lwStep rng evidence_vals node st with
    | .error e => .error e
    | .ok st' => lwPass rng evidence_vals rest st'

/-- The evidence-aware `while len(sample_vals) < len(self.nodes)` loop. -/
def lwLoop (rng : Nat → ℚ) (evidence_vals : Dict)
    (nodes : List BooleanVariableNode) :
    Nat → LwState → Except PyError LwState
  | 0, st =>
    if st.sample_vals.length < nodes.length then .error .nonTermination
    else .ok st
  | fuel + 1, st =>
    if st.sample_vals.length < nodes.length then
      match lwPass rng evidence_vals nodes st with
      | .error e => .error e
      | .ok st' => lwLoop rng evidence_vals nodes fuel st'
    else .ok st

/-- `LikelihoodWeightingSampler.generate_sample(evidence_vals)`: the weighted
sample, starting from the empty assignment with weight `1.0`. -/
def LikelihoodWeightingSampler.generate_sample (rng : Nat → ℚ)
    (nodes : List BooleanVariableNode) (fuel : Nat) (evidence_vals : Dict)
    (i0 : Nat) : Except PyError LwState :=
  lwLoop rng evidence_vals nodes fuel ⟨[], 1, i0⟩

/-- `LikelihoodWeightingSampler.generate_samples(n, evidence_vals)`:
`n` weighted samples in order, threading the random stream. -/
def LikelihoodWeightingSampler.generate_samples (rng : Nat → ℚ)
    (nodes : List BooleanVariableNode) (fuel : Nat) (evidence_vals : Dict) :
    Nat → Nat → Except PyError (List (Dict × ℚ) × Nat)
  | 0, i => .ok ([], i)
  | n + 1, i =>
    match LikelihoodWeightingSampler.generate_sample rng nodes fuel
        evidence_vals i with
    | .error e => .error e
    | .ok st =>
      match LikelihoodWeightingSampler.generate_samples rng nodes fuel
          evidence_vals n st.idx with
      | .error e => .error e
      | .ok (rest, iFin) => .ok ((st.sample_vals, st.weight) :: rest, iFin)

/-- The accumulation loop of `LikelihoodWeightingSampler.get_prob`:
`count2 += weight` always, `count += weight` on a query match. -/
def lwCountLoop (query : Dict) (samples : List (Dict × ℚ)) : ℚ × ℚ :=
  samples.foldl
    (fun acc ts =>
      (if queryMatches query ts.1 then acc.1 + ts.2 else acc.1,
       acc.2 + ts.2))
    (0, 0)

/-- `LikelihoodWeightingSampler.get_prob(query_vals, evidence_vals,
num_samples)`: `count / count2`; a zero total weight raises
`ZeroDivisionError`. -/
def LikelihoodWeightingSampler.get_prob (rng : Nat → ℚ)
    (nodes : List BooleanVariableNode) (fuel : Nat)
    (query_vals evidence_vals : Dict) (num_samples i0 : Nat) :
    Except PyError ℚ :=
  match LikelihoodWeightingSampler.generate_samples rng nodes fuel
      evidence_vals num_samples i0 with
  | .error e => .error e
  | .ok (samples, _) =>
    let cc := lwCountLoop query_vals samples
    if cc.2 = 0 then .error .zeroDivision
    else .ok (cc.1 / cc.2)

/-! ## Dictionary lemmas -/

/-- The keys of a dict, in insertion order. -/
def dictKeys (d : Dict) : List String :=
  d.map Prod.fst

theorem node_not_in_sample_eq_true (node : BooleanVariableNode) (d : Dict) :
    node_not_in_sample node d = true := by
  simp [node_not_in_sample, strEqNode]

/-- `List.lookup` on a cons cell, with a propositional key test. -/
theorem lookup_cons_dict (a k : String) (v : Bool) (rest : Dict) :
    List.lookup a ((k, v) :: rest) = if a = k then some v else rest.lookup a := by
  rw [List.lookup_cons]
  by_cases h : a = k
  · subst h
    simp
  · simp [beq_false_of_ne h, h]

theorem dictMem_iff_mem_dictKeys (d : Dict) (k : String) :
    dictMem d k = true ↔ k ∈ dictKeys d := by
  simp [dictMem, dictKeys]

theorem lookup_eq_none_iff_not_mem (d : Dict) (k : String) :
    d.lookup k = none ↔ k ∉ dictKeys d := by
  induction d with
  | nil => simp [dictKeys]
  | cons kv rest ih =>
    obtain ⟨k0, v0⟩ := kv
    rw [lookup_cons_dict]
    by_cases h : k = k0
    · subst h
      simp [dictKeys]
    · rw [if_neg h]
      simp only [dictKeys, List.map_cons, List.mem_cons, not_or]
      rw [ih]
      simp [dictKeys, h]

theorem lookup_isSome_iff_mem (d : Dict) (k : String) :
    (d.lookup k).isSome = true ↔ k ∈ dictKeys d := by
  have := lookup_eq_none_iff_not_mem d k
  cases h : d.lookup k <;> simp [h] at this ⊢ <;> tauto

theorem dictMem_iff_lookup_isSome (d : Dict) (k : String) :
    dictMem d k = true ↔ (d.lookup k).isSome = true := by
  rw [dictMem_iff_mem_dictKeys, lookup_isSome_iff_mem]

theorem dictKeys_dictInsert_of_mem (d : Dict) (k : String) (v : Bool)
    (h : dictMem d k = true) : dictKeys (dictInsert d k v) = dictKeys d := by
  rw [dictInsert, if_pos h]
  unfold dictKeys
  rw [List.map_map]
  apply List.map_congr_left
  intro kv _
  by_cases hk : kv.1 = k
  · simp [Function.comp, hk]
  · simp [Function.comp, hk]

theorem dictKeys_dictInsert_of_not_mem (d : Dict) (k : String) (v : Bool)
    (h : ¬dictMem d k = true) :
    dictKeys (dictInsert d k v) = dictKeys d ++ [k] := by
  rw [dictInsert, if_neg h]
  simp [dictKeys]

theorem mem_dictKeys_dictInsert (d : Dict) (k a : String) (v : Bool) :
    a ∈ dictKeys (dictInsert d k v) ↔ a ∈ dictKeys d ∨ a = k := by
  by_cases h : dictMem d k = true
  · rw [dictKeys_dictInsert_of_mem d k v h]
    constructor
    · exact Or.inl
    · rintro (ha | rfl)
      · exact ha
      · exact (dictMem_iff_mem_dictKeys d a).mp h
  · rw [dictKeys_dictInsert_of_not_mem d k v h]
    simp

theorem nodup_dictKeys_dictInsert (d : Dict) (k : String) (v : Bool)
    (h : (dictKeys d).Nodup) : (dictKeys (dictInsert d k v)).Nodup := by
  by_cases hm : dictMem d k = true
  · rwa [dictKeys_dictInsert_of_mem d k v hm]
  · rw [dictKeys_dictInsert_of_not_mem d k v hm]
    simp only [List.nodup_append, List.nodup_cons, List.not_mem_nil,
      not_false_iff, List.nodup_nil, and_true, true_and]
    refine ⟨h, ?_⟩
    intro a ha hb
    simp only [List.mem_singleton] at hb
    subst hb
    exact hm ((dictMem_iff_mem_dictKeys d a).mpr ha)

theorem length_dictInsert_of_mem (d : Dict) (k : String) (v : Bool)
    (h : dictMem d k = true) : (dictInsert d k v).length = d.length := by
  rw [dictInsert, if_pos h, List.length_map]

theorem length_dictInsert_of_not_mem (d : Dict) (k : String) (v : Bool)
    (h : ¬dictMem d k = true) :
    (dictInsert d k v).length = d.length + 1 := by
  rw [dictInsert, if_neg h]
  simp

theorem length_dictKeys (d : Dict) : (dictKeys d).length = d.length := by
  simp [dictKeys]

theorem lookup_map_overwrite_self (d : Dict) (k : String) (v : Bool)
    (h : k ∈ dictKeys d) :
    (d.map fun kv => if kv.1 = k then (k, v) else kv).lookup k = some v := by
  induction d with
  | nil => simp [dictKeys] at h
  | cons kv rest ih =>
    obtain ⟨k0, v0⟩ := kv
    by_cases hk : k0 = k
    · subst hk
      have hhead :
          (if ((k0, v0) : String × Bool).1 = k0 then (k0, v) else (k0, v0)) =
            (k0, v) := by simp
      rw [List.map_cons, hhead, lookup_cons_dict, if_pos rfl]
    · have hhead :
          (if ((k0, v0) : String × Bool).1 = k then (k, v) else (k0, v0)) =
            (k0, v0) := by simp [hk]
      rw [List.map_cons, hhead, lookup_cons_dict,
        if_neg fun he => hk he.symm]
      apply ih
      simp only [dictKeys, List.map_cons, List.mem_cons] at h
      rcases h with h | h
      · exact absurd h.symm hk
      · exact h

theorem lookup_map_overwrite_ne (d : Dict) (k a : String) (v : Bool)
    (ha : a ≠ k) :
    (d.map fun kv => if kv.1 = k then (k, v) else kv).lookup a =
      d.lookup a := by
  induction d with
  | nil => simp
  | cons kv rest ih =>
    obtain ⟨k0, v0⟩ := kv
    by_cases hk : k0 = k
    · subst hk
      have hhead :
          (if ((k0, v0) : String × Bool).1 = k0 then (k0, v) else (k0, v0)) =
            (k0, v) := by simp
      rw [List.map_cons, hhead, lookup_cons_dict, lookup_cons_dict,
        if_neg ha, if_neg ha]
      exact ih
    · have hhead :
          (if ((k0, v0) : String × Bool).1 = k then (k, v) else (k0, v0)) =
            (k0, v0) := by simp [hk]
      rw [List.map_cons, hhead, lookup_cons_dict, lookup_cons_dict]
      by_cases hak : a = k0
      · simp [hak]
      · rw [if_neg hak, if_neg hak]
        exact ih

theorem lookup_append_right (d d' : Dict) (k : String)
    (h : d.lookup k = none) : (d ++ d').lookup k = d'.lookup k := by
  induction d with
  | nil => simp
  | cons kv rest ih =>
    obtain ⟨k0, v0⟩ := kv
    rw [List.cons_append, lookup_cons_dict]
    rw [lookup_cons_dict] at h
    by_cases hk : k = k0
    · rw [if_pos hk] at h
      exact Option.noConfusion h
    · rw [if_neg hk] at h ⊢
      exact ih h

theorem lookup_append_single_ne (d : Dict) (k a : String) (v : Bool)
    (h : a ≠ k) : (d ++ [(k, v)]).lookup a = d.lookup a := by
  induction d with
  | nil =>
    simp only [List.nil_append]
    rw [lookup_cons_dict, if_neg h]
  | cons kv rest ih =>
    obtain ⟨k0, v0⟩ := kv
    rw [List.cons_append, lookup_cons_dict, lookup_cons_dict]
    by_cases hak : a = k0
    · simp [hak]
    · rw [if_neg hak, if_neg hak]
      exact ih

theorem lookup_dictInsert_self (d : Dict) (k : String) (v : Bool) :
    (dictInsert d k v).lookup k = some v := by
  by_cases h : dictMem d k = true
  · rw [dictInsert, if_pos h]
    exact lookup_map_overwrite_self d k v ((dictMem_iff_mem_dictKeys d k).mp h)
  · rw [dictInsert, if_neg h]
    have hnone : d.lookup k = none := (lookup_eq_none_iff_not_mem d k).mpr
      fun hm => h ((dictMem_iff_mem_dictKeys d k).mpr hm)
    rw [lookup_append_right d _ k hnone, lookup_cons_dict, if_pos rfl]

theorem lookup_dictInsert_ne (d : Dict) (k a : String) (v : Bool)
    (h : a ≠ k) : (dictInsert d k v).lookup a = d.lookup a := by
  by_cases hm : dictMem d k = true
  · rw [dictInsert, if_pos hm]
    exact lookup_map_overwrite_ne d k a v h
  · rw [dictInsert, if_neg hm]
    exact lookup_append_single_ne d k a v h

/-! ## Parent-value and CPT lemmas -/

theorem parentVals_of_assigned (d : Dict) (ps : List String)
    (h : allParentsAssigned d ps = true) :
    ∃ pv, parentVals d ps = some pv ∧ pv.length = ps.length := by
  induction ps with
  | nil => exact ⟨[], rfl, rfl⟩
  | cons p rest ih =>
    simp only [allParentsAssigned, List.all_cons, Bool.and_eq_true] at h
    obtain ⟨hp, hrest⟩ := h
    obtain ⟨b, hb⟩ :=
      Option.isSome_iff_exists.mp ((dictMem_iff_lookup_isSome d p).mp hp)
    obtain ⟨pv, hpv, hlen⟩ := ih hrest
    exact ⟨b :: pv, by simp [parentVals, hb, hpv], by simp [hlen]⟩

/-- A successful association-list lookup returns a stored pair. -/
theorem cpt_lookup_mem (l : List (List Bool × ℚ)) (k : List Bool) (v : ℚ)
    (h : l.lookup k = some v) : (k, v) ∈ l := by
  induction l with
  | nil => simp [List.lookup] at h
  | cons kv rest ih =>
    rw [List.lookup_cons] at h
    cases hk : (k == kv.1) with
    | true =>
      rw [hk] at h
      cases h
      have hkk : k = kv.1 := by simpa using hk
      subst hkk
      exact List.mem_cons_self _ _
    | false =>
      rw [hk] at h
      exact List.mem_cons_of_mem _ (ih h)

/-! ## Characterization of one loop-body iteration -/

/-- Everything `lwStep` can do when it succeeds: skip a node whose parents
are not all assigned, force an evidence variable and scale the weight, or
draw a fresh value from the CPT. -/
theorem lwStep_spec (rng : Nat → ℚ) (ev : Dict) (node : BooleanVariableNode)
    (st st' : LwState) (h : lwStep rng ev node st = .ok st') :
    (st' = st ∧ ¬allParentsAssigned st.sample_vals node.parents = true) ∨
    (∃ pv val p, allParentsAssigned st.sample_vals node.parents = true ∧
      parentVals st.sample_vals node.parents = some pv ∧
      ev.lookup node.target = some val ∧
      (if val then node.get_prob_true pv else node.get_prob_false pv) =
        some p ∧
      st' = ⟨dictInsert st.sample_vals node.target val,
             st.weight * p, st.idx⟩) ∨
    (∃ pv p, allParentsAssigned st.sample_vals node.parents = true ∧
      parentVals st.sample_vals node.parents = some pv ∧
      ev.lookup node.target = none ∧
      node.get_prob_true pv = some p ∧
      st' = ⟨dictInsert st.sample_vals node.target (drawValue rng st.idx p),
             st.weight, st.idx + 1⟩) := by
  unfold lwStep at h
  simp only [node_not_in_sample_eq_true, if_true] at h
  split at h
  case isTrue hpar =>
    split at h
    case h_1 hpv => exact Except.noConfusion h
    case h_2 pv hpv =>
      split at h
      case h_1 val hevl =>
        split at h
        case h_1 hp => exact Except.noConfusion h
        case h_2 p hp =>
          cases h
          exact Or.inr (Or.inl ⟨pv, val, p, hpar, hpv, hevl, hp, rfl⟩)
      case h_2 hevl =>
        split at h
        case h_1 hp => exact Except.noConfusion h
        case h_2 p hp =>
          cases h
          exact Or.inr (Or.inr ⟨pv, p, hpar, hpv, hevl, hp, rfl⟩)
  case isFalse hpar =>
    cases h
    exact Or.inl ⟨rfl, hpar⟩

/-- Under a total CPT, `lwStep` never raises. -/
theorem lwStep_ok_of_total (rng : Nat → ℚ) (ev : Dict)
    (node : BooleanVariableNode) (st : LwState)
    (hcpt : ∀ bs : List Bool, bs.length = node.parents.length →
      (node.cpt.lookup bs).isSome = true) :
    ∃ st', lwStep rng ev node st = .ok st' := by
  unfold lwStep
  simp only [node_not_in_sample_eq_true, if_true]
  by_cases hpar : allParentsAssigned st.sample_vals node.parents = true
  · rw [if_pos hpar]
    obtain ⟨pv, hpv, hlen⟩ := parentVals_of_assigned _ _ hpar
    rw [hpv]
    obtain ⟨p, hp⟩ := Option.isSome_iff_exists.mp (hcpt pv hlen)
    cases hev : ev.lookup node.target with
    | some val =>
      cases val with
      | true =>
        simp only [if_true, BooleanVariableNode.get_prob_true, hp]
        exact ⟨_, rfl⟩
      | false =>
        simp only [Bool.false_eq_true, if_false,
          BooleanVariableNode.get_prob_false,
          BooleanVariableNode.get_prob_true, hp, Option.map_some]
        exact ⟨_, rfl⟩
    | none =>
      simp only [BooleanVariableNode.get_prob_true, hp]
      exact ⟨_, rfl⟩
  · rw [if_neg hpar]
    exact ⟨st, rfl⟩

theorem lwStep_sample_vals (rng : Nat → ℚ) (ev : Dict)
    (node : BooleanVariableNode) (st st' : LwState)
    (h : lwStep rng ev node st = .ok st') :
    st'.sample_vals = st.sample_vals ∨
      ∃ b, st'.sample_vals = dictInsert st.sample_vals node.target b := by
  rcases lwStep_spec rng ev node st st' h with
    ⟨rfl, -⟩ | ⟨pv, val, p, -, -, -, -, rfl⟩ | ⟨pv, p, -, -, -, -, rfl⟩
  · exact Or.inl rfl
  · exact Or.inr ⟨val, rfl⟩
  · exact Or.inr ⟨drawValue rng st.idx p, rfl⟩

theorem lwStep_assigns (rng : Nat → ℚ) (ev : Dict)
    (node : BooleanVariableNode) (st st' : LwState)
    (h : lwStep rng ev node st = .ok st')
    (hpar : allParentsAssigned st.sample_vals node.parents = true) :
    ∃ b, st'.sample_vals = dictInsert st.sample_vals node.target b := by
  rcases lwStep_spec rng ev node st st' h with
    ⟨rfl, hn⟩ | ⟨pv, val, p, -, -, -, -, rfl⟩ | ⟨pv, p, -, -, -, -, rfl⟩
  · exact absurd hpar hn
  · exact ⟨val, rfl⟩
  · exact ⟨drawValue rng st.idx p, rfl⟩

theorem lwStep_ev_forced (rng : Nat → ℚ) (ev : Dict)
    (node : BooleanVariableNode) (st st' : LwState) (val : Bool)
    (h : lwStep rng ev node st = .ok st')
    (hev : ev.lookup node.target = some val) :
    st'.sample_vals = st.sample_vals ∨
      st'.sample_vals = dictInsert st.sample_vals node.target val := by
  rcases lwStep_spec rng ev node st st' h with
    ⟨rfl, -⟩ | ⟨pv, val', p, -, -, hevl, -, rfl⟩ | ⟨pv, p, -, -, hevl, -, rfl⟩
  · exact Or.inl rfl
  · rw [hev] at hevl
    cases hevl
    exact Or.inr rfl
  · rw [hev] at hevl
    exact Option.noConfusion hevl

theorem lwStep_weight (rng : Nat → ℚ) (ev : Dict)
    (node : BooleanVariableNode) (st st' : LwState)
    (h : lwStep rng ev node st = .ok st')
    (hcpt : ∀ e ∈ node.cpt, 0 < e.2 ∧ e.2 < 1)
    (hw : 0 < st.weight) : 0 < st'.weight := by
  rcases lwStep_spec rng ev node st st' h with
    ⟨rfl, -⟩ | ⟨pv, val, p, -, -, -, hp, rfl⟩ | ⟨pv, p, -, -, -, -, rfl⟩
  · exact hw
  · show 0 < st.weight * p
    have hp' : 0 < p := by
      cases val with
      | true =>
        simp only [if_true, BooleanVariableNode.get_prob_true] at hp
        exact (hcpt _ (cpt_lookup_mem _ _ _ hp)).1
      | false =>
        simp only [Bool.false_eq_true, if_false,
          BooleanVariableNode.get_prob_false,
          BooleanVariableNode.get_prob_true] at hp
        obtain ⟨q, hq, hq1⟩ := Option.map_eq_some'.mp hp
        have := (hcpt _ (cpt_lookup_mem _ _ _ hq)).2
        rw [← hq1]
        linarith
    exact mul_pos hw hp'
  · exact hw

/-! ## List helper lemmas -/

theorem exists_min_measure {α : Type} (f : α → Nat) :
    ∀ l : List α, l ≠ [] → ∃ a ∈ l, ∀ b ∈ l, f a ≤ f b
  | [], h => absurd rfl h
  | [x], _ => ⟨x, by simp⟩
  | x :: y :: ys, _ => by
    obtain ⟨a, ha, hmin⟩ := exists_min_measure f (y :: ys) (by simp)
    by_cases hf : f x ≤ f a
    · refine ⟨x, List.mem_cons_self _ _, ?_⟩
      intro b hb
      rcases List.mem_cons.mp hb with rfl | hb
      · exact le_refl _
      · exact hf.trans (hmin b hb)
    · refine ⟨a, List.mem_cons_of_mem _ ha, ?_⟩
      intro b hb
      rcases List.mem_cons.mp hb with rfl | hb
      · exact (not_le.mp hf).le
      · exact hmin b hb

theorem nodup_subset_length_le {l l' : List String} (hn : l.Nodup)
    (hsub : ∀ a ∈ l, a ∈ l') : l.length ≤ l'.length := by
  have h1 : l.toFinset.card = l.length := List.toFinset_card_of_nodup hn
  have h2 : l.toFinset ⊆ l'.toFinset := by
    intro a ha
    rw [List.mem_toFinset] at ha ⊢
    exact hsub a ha
  calc l.length = l.toFinset.card := h1.symm
    _ ≤ l'.toFinset.card := Finset.card_le_card h2
    _ ≤ l'.length := l'.toFinset_card_le

/-! ## Loop invariants of the weighted sampler -/

/-- Invariant maintained by the evidence-aware sampling loop: the partial
assignment has unique keys, each key names some node of the network, and an
evidence variable is never bound to anything but its evidence value. -/
structure LwInv (nodes : List BooleanVariableNode) (ev : Dict)
    (st : LwState) : Prop where
  nodup : (dictKeys st.sample_vals).Nodup
  keysSub : ∀ k ∈ dictKeys st.sample_vals, k ∈ nodes.map (·.target)
  evRespect : ∀ k v, ev.lookup k = some v →
    st.sample_vals.lookup k = none ∨ st.sample_vals.lookup k = some v

theorem lwStep_keys_mono (rng : Nat → ℚ) (ev : Dict)
    (node : BooleanVariableNode) (st st' : LwState)
    (h : lwStep rng ev node st = .ok st') :
    ∀ k ∈ dictKeys st.sample_vals, k ∈ dictKeys st'.sample_vals := by
  rcases lwStep_sample_vals rng ev node st st' h with heq | ⟨b, heq⟩ <;>
    intro k hk <;> rw [heq]
  · exact hk
  · exact (mem_dictKeys_dictInsert _ _ _ _).mpr (Or.inl hk)

theorem allParentsAssigned_mono (d d' : Dict) (ps : List String)
    (hmono : ∀ k ∈ dictKeys d, k ∈ dictKeys d')
    (h : allParentsAssigned d ps = true) :
    allParentsAssigned d' ps = true := by
  rw [allParentsAssigned, List.all_eq_true] at h ⊢
  intro p hp
  have hd := h p hp
  rw [dictMem_iff_mem_dictKeys] at hd ⊢
  exact hmono p hd

theorem lwStep_inv (rng : Nat → ℚ) (ev : Dict)
    {nodes : List BooleanVariableNode} (node : BooleanVariableNode)
    (hmem : node ∈ nodes) (st st' : LwState)
    (h : lwStep rng ev node st = .ok st') (hinv : LwInv nodes ev st) :
    LwInv nodes ev st' := by
  rcases lwStep_sample_vals rng ev node st st' h with heq | ⟨b, heq⟩
  · refine ⟨?_, ?_, ?_⟩ <;> rw [heq]
    · exact hinv.nodup
    · exact hinv.keysSub
    · exact hinv.evRespect
  · refine ⟨?_, ?_, ?_⟩
    · rw [heq]
      exact nodup_dictKeys_dictInsert _ _ _ hinv.nodup
    · intro k hk
      rw [heq] at hk
      rcases (mem_dictKeys_dictInsert _ _ _ _).mp hk with hk' | rfl
      · exact hinv.keysSub k hk'
      · exact List.mem_map.mpr ⟨node, hmem, rfl⟩
    · intro k v hkv
      by_cases hkt : k = node.target
      · subst hkt
        rcases lwStep_ev_forced rng ev node st st' v h hkv with h2 | h2
        · rw [h2]
          exact hinv.evRespect _ _ hkv
        · rw [h2, lookup_dictInsert_self]
          exact Or.inr rfl
      · rw [heq, lookup_dictInsert_ne _ _ _ _ hkt]
        exact hinv.evRespect _ _ hkv

theorem lwPass_ok_of_total (rng : Nat → ℚ) (ev : Dict)
    (l : List BooleanVariableNode)
    (hcpt : ∀ node ∈ l, ∀ bs : List Bool,
      bs.length = node.parents.length → (node.cpt.lookup bs).isSome = true) :
    ∀ st : LwState, ∃ st', lwPass rng ev l st = .ok st' := by
  induction l with
  | nil => exact fun st => ⟨st, rfl⟩
  | cons node rest ih =>
    intro st
    obtain ⟨st1, hst1⟩ :=
      lwStep_ok_of_total rng ev node st (hcpt node (List.mem_cons_self _ _))
    obtain ⟨st', hst'⟩ :=
      ih (fun n hn => hcpt n (List.mem_cons_of_mem _ hn)) st1
    refine ⟨st', ?_⟩
    simp only [lwPass]
    rw [hst1]
    exact hst'

theorem lwPass_keys_mono (rng : Nat → ℚ) (ev : Dict)
    (l : List BooleanVariableNode) (st st' : LwState)
    (h : lwPass rng ev l st = .ok st') :
    ∀ k ∈ dictKeys st.sample_vals, k ∈ dictKeys st'.sample_vals := by
  induction l generalizing st with
  | nil =>
    cases h
    exact fun k hk => hk
  | cons node rest ih =>
    simp only [lwPass] at h
    split at h
    · exact Except.noConfusion h
    · rename_i st1 hst1
      intro k hk
      exact ih st1 h k (lwStep_keys_mono rng ev node st st1 hst1 k hk)

theorem lwPass_inv (rng : Nat → ℚ) (ev : Dict)
    {nodes : List BooleanVariableNode} (l : List BooleanVariableNode)
    (hl : ∀ node ∈ l, node ∈ nodes) (st st' : LwState)
    (h : lwPass rng ev l st = .ok st') (hinv : LwInv nodes ev st) :
    LwInv nodes ev st' := by
  induction l generalizing st with
  | nil =>
    cases h
    exact hinv
  | cons node rest ih =>
    simp only [lwPass] at h
    split at h
    · exact Except.noConfusion h
    · rename_i st1 hst1
      exact ih (fun n hn => hl n (List.mem_cons_of_mem _ hn)) st1 h
        (lwStep_inv rng ev node (hl node (List.mem_cons_self _ _)) st st1
          hst1 hinv)

theorem lwPass_weight (rng : Nat → ℚ) (ev : Dict)
    (l : List BooleanVariableNode) (st st' : LwState)
    (h : lwPass rng ev l st = .ok st')
    (hcpt : ∀ node ∈ l, ∀ e ∈ node.cpt, 0 < e.2 ∧ e.2 < 1)
    (hw : 0 < st.weight) : 0 < st'.weight := by
  induction l generalizing st with
  | nil =>
    cases h
    exact hw
  | cons node rest ih =>
    simp only [lwPass] at h
    split at h
    · exact Except.noConfusion h
    · rename_i st1 hst1
      exact ih st1 h (fun n hn => hcpt n (List.mem_cons_of_mem _ hn))
        (lwStep_weight rng ev node st st1 hst1
          (hcpt node (List.mem_cons_self _ _)) hw)

theorem lwPass_assigns_ready (rng : Nat → ℚ) (ev : Dict)
    (l : List BooleanVariableNode) (st st' : LwState)
    (h : lwPass rng ev l st = .ok st') (node : BooleanVariableNode)
    (hmem : node ∈ l)
    (hpar : allParentsAssigned st.sample_vals node.parents = true) :
    node.target ∈ dictKeys st'.sample_vals := by
  induction l generalizing st with
  | nil => cases hmem
  | cons n0 rest ih =>
    simp only [lwPass] at h
    split at h
    · exact Except.noConfusion h
    · rename_i st1 hst1
      rcases List.mem_cons.mp hmem with rfl | hmem'
      · obtain ⟨b, hb⟩ := lwStep_assigns rng ev node st st1 hst1 hpar
        have hk1 : node.target ∈ dictKeys st1.sample_vals := by
          rw [hb]
          exact (mem_dictKeys_dictInsert _ _ _ _).mpr (Or.inr rfl)
        exact lwPass_keys_mono rng ev rest st1 st' h _ hk1
      · exact ih st1 h hmem'
          (allParentsAssigned_mono _ _ _
            (lwStep_keys_mono rng ev n0 st st1 hst1) hpar)

/-! ## Termination and whole-loop lemmas -/

/-- Among the unassigned nodes of an acyclic, parent-closed network there is
always one whose parents are all assigned (the one of minimal rank). -/
theorem exists_ready_unassigned (nodes : List BooleanVariableNode)
    (rank : String → Nat)
    (hrank : ∀ node ∈ nodes, ∀ p ∈ node.parents, rank p < rank node.target)
    (hpar : ∀ node ∈ nodes, ∀ p ∈ node.parents, p ∈ nodes.map (·.target))
    (d : Dict)
    (hne : ∃ node ∈ nodes, node.target ∉ dictKeys d) :
    ∃ node ∈ nodes, node.target ∉ dictKeys d ∧
      allParentsAssigned d node.parents = true := by
  classical
  have hUne : nodes.filter (fun n => decide (n.target ∉ dictKeys d)) ≠ [] := by
    obtain ⟨n, hn, hnt⟩ := hne
    intro h0
    have hmem : n ∈ nodes.filter (fun n => decide (n.target ∉ dictKeys d)) :=
      List.mem_filter.mpr ⟨hn, by simpa using hnt⟩
    rw [h0] at hmem
    cases hmem
  obtain ⟨m, hmU, hmin⟩ :=
    exists_min_measure (fun n => rank n.target) _ hUne
  have hmmem : m ∈ nodes := (List.mem_filter.mp hmU).1
  have hmt : m.target ∉ dictKeys d := by
    simpa using (List.mem_filter.mp hmU).2
  refine ⟨m, hmmem, hmt, ?_⟩
  rw [allParentsAssigned, List.all_eq_true]
  intro p hp
  by_contra hpm
  obtain ⟨np, hnp, hnpt⟩ := List.mem_map.mp (hpar m hmmem p hp)
  have hnpt' : np.target ∉ dictKeys d := by
    rw [hnpt]
    intro hmem
    exact hpm ((dictMem_iff_mem_dictKeys d p).mpr hmem)
  have hnpU : np ∈ nodes.filter (fun n => decide (n.target ∉ dictKeys d)) :=
    List.mem_filter.mpr ⟨hnp, by simpa using hnpt'⟩
  have h1 : rank m.target ≤ rank np.target := hmin np hnpU
  have h2 : rank p < rank m.target := hrank m hmmem p hp
  rw [hnpt] at h1
  omega

/-- A completed assignment with unique keys drawn from the node targets
covers every target, provided the targets are themselves unique. -/
theorem targets_assigned_of_complete (nodes : List BooleanVariableNode)
    (d : Dict) (hn : (dictKeys d).Nodup)
    (hsub : ∀ k ∈ dictKeys d, k ∈ nodes.map (·.target))
    (hlen : nodes.length ≤ d.length) :
    ∀ node ∈ nodes, node.target ∈ dictKeys d := by
  have h1 : (dictKeys d).toFinset ⊆ (nodes.map (·.target)).toFinset := by
    intro a ha
    rw [List.mem_toFinset] at ha ⊢
    exact hsub a ha
  have hcard1 : (dictKeys d).toFinset.card = d.length := by
    rw [List.toFinset_card_of_nodup hn, length_dictKeys]
  have hcard2 : (nodes.map (·.target)).toFinset.card ≤ nodes.length := by
    refine le_trans (List.toFinset_card_le _) ?_
    simp
  have heq : (dictKeys d).toFinset = (nodes.map (·.target)).toFinset :=
    Finset.eq_of_subset_of_card_le h1 (by omega)
  intro node hnode
  have : node.target ∈ (nodes.map (·.target)).toFinset := by
    rw [List.mem_toFinset]
    exact List.mem_map.mpr ⟨node, hnode, rfl⟩
  rw [← heq, List.mem_toFinset] at this
  exact this

theorem lwLoop_ok_length (rng : Nat → ℚ) (ev : Dict)
    (nodes : List BooleanVariableNode) (fuel : Nat) (st st' : LwState)
    (h : lwLoop rng ev nodes fuel st = .ok st') :
    nodes.length ≤ st'.sample_vals.length := by
  induction fuel generalizing st with
  | zero =>
    simp only [lwLoop] at h
    split at h
    · exact Except.noConfusion h
    · cases h
      omega
  | succ f ih =>
    simp only [lwLoop] at h
    split at h
    · split at h
      · exact Except.noConfusion h
      · exact ih _ h
    · cases h
      omega

theorem lwLoop_inv (rng : Nat → ℚ) (ev : Dict)
    (nodes : List BooleanVariableNode) (fuel : Nat) (st st' : LwState)
    (h : lwLoop rng ev nodes fuel st = .ok st') (hinv : LwInv nodes ev st) :
    LwInv nodes ev st' := by
  induction fuel generalizing st with
  | zero =>
    simp only [lwLoop] at h
    split at h
    · exact Except.noConfusion h
    · cases h
      exact hinv
  | succ f ih =>
    simp only [lwLoop] at h
    split at h
    · split at h
      · exact Except.noConfusion h
      · rename_i st1 hst1
        exact ih st1 h (lwPass_inv rng ev nodes (fun n hn => hn) st st1
          hst1 hinv)
    · cases h
      exact hinv

theorem lwLoop_weight_pos (rng : Nat → ℚ) (ev : Dict)
    (nodes : List BooleanVariableNode) (fuel : Nat) (st st' : LwState)
    (h : lwLoop rng ev nodes fuel st = .ok st')
    (hcpt : ∀ node ∈ nodes, ∀ e ∈ node.cpt, 0 < e.2 ∧ e.2 < 1)
    (hw : 0 < st.weight) : 0 < st'.weight := by
  induction fuel generalizing st with
  | zero =>
    simp only [lwLoop] at h
    split at h
    · exact Except.noConfusion h
    · cases h
      exact hw
  | succ f ih =>
    simp only [lwLoop] at h
    split at h
    · split at h
      · exact Except.noConfusion h
      · rename_i st1 hst1
        exact ih st1 h (lwPass_weight rng ev nodes st st1 hst1 hcpt hw)
    · cases h
      exact hw

/-- A well-formed network (unique node names, parent references into the
node list, an acyclicity rank, total CPTs) lets the evidence-aware loop
finish in at most `|nodes| - assigned` further passes. -/
theorem lwLoop_ok (rng : Nat → ℚ) (ev : Dict)
    (nodes : List BooleanVariableNode) (rank : String → Nat)
    (hrank : ∀ node ∈ nodes, ∀ p ∈ node.parents, rank p < rank node.target)
    (hpar : ∀ node ∈ nodes, ∀ p ∈ node.parents, p ∈ nodes.map (·.target))
    (hcpt : ∀ node ∈ nodes, ∀ bs : List Bool,
      bs.length = node.parents.length → (node.cpt.lookup bs).isSome = true)
    (htN : (nodes.map (·.target)).Nodup) :
    ∀ (fuel : Nat) (st : LwState), LwInv nodes ev st →
      nodes.length ≤ st.sample_vals.length + fuel →
      ∃ st', lwLoop rng ev nodes fuel st = .ok st' := by
  intro fuel
  induction fuel with
  | zero =>
    intro st _ hlen
    refine ⟨st, ?_⟩
    simp only [lwLoop]
    rw [if_neg (by omega)]
  | succ f ih =>
    intro st hinv hlen
    by_cases hlt : st.sample_vals.length < nodes.length
    · obtain ⟨st1, hst1⟩ := lwPass_ok_of_total rng ev nodes hcpt st
      have hne : ∃ node ∈ nodes, node.target ∉ dictKeys st.sample_vals := by
        by_contra hall
        push_neg at hall
        have hsub : ∀ a ∈ nodes.map (·.target),
            a ∈ dictKeys st.sample_vals := by
          intro a ha
          obtain ⟨n, hn, rfl⟩ := List.mem_map.mp ha
          exact hall n hn
        have hle := nodup_subset_length_le htN hsub
        rw [length_dictKeys, List.length_map] at hle
        omega
      obtain ⟨m, hm, hmt, hmpar⟩ :=
        exists_ready_unassigned nodes rank hrank hpar st.sample_vals hne
      have hassigned : m.target ∈ dictKeys st1.sample_vals :=
        lwPass_assigns_ready rng ev nodes st st1 hst1 m hm hmpar
      have hgrow : st.sample_vals.length < st1.sample_vals.length := by
        have hmono := lwPass_keys_mono rng ev nodes st st1 hst1
        have hcons : (m.target :: dictKeys st.sample_vals).Nodup := by
          simp only [List.nodup_cons]
          exact ⟨hmt, hinv.nodup⟩
        have hsub : ∀ a ∈ m.target :: dictKeys st.sample_vals,
            a ∈ dictKeys st1.sample_vals := by
          intro a ha
          rcases List.mem_cons.mp ha with rfl | ha
          · exact hassigned
          · exact hmono a ha
        have hle := nodup_subset_length_le hcons hsub
        rw [length_dictKeys] at hle
        simp only [List.length_cons, length_dictKeys] at hle
        omega
      have hinv1 : LwInv nodes ev st1 :=
        lwPass_inv rng ev nodes (fun n hn => hn) st st1 hst1 hinv
      obtain ⟨st', hst'⟩ := ih st1 hinv1 (by omega)
      refine ⟨st', ?_⟩
      have hunf : lwLoop rng ev nodes (f + 1) st =
          match lwPass rng ev nodes st with
          | .error e => .error e
          | .ok s => lwLoop rng ev nodes f s := by
        simp only [lwLoop, if_pos hlt]
      rw [hunf, hst1]
      exact hst'
    · refine ⟨st, ?_⟩
      simp only [lwLoop]
      rw [if_neg hlt]

/-! ## Bridge: the unconditioned sampler is the evidence-aware sampler with
empty evidence (weight fixed at `1.0`) -/

theorem lwStep_nil_ev (rng : Nat → ℚ) (node : BooleanVariableNode)
    (w : ℚ) (st : SimpleState) :
    lwStep rng [] node ⟨st.sample_vals, w, st.idx⟩ =
      (simpleStep rng node st).map fun s => ⟨s.sample_vals, w, s.idx⟩ := by
  obtain ⟨d, i⟩ := st
  show lwStep rng [] node ⟨d, w, i⟩ = _
  unfold lwStep simpleStep
  simp only [node_not_in_sample_eq_true, if_true]
  by_cases hpar : allParentsAssigned d node.parents = true
  · rw [if_pos hpar, if_pos hpar]
    cases hpv : parentVals d node.parents with
    | none => rfl
    | some pv =>
      simp only [List.lookup_nil]
      cases hp : node.get_prob_true pv with
      | none => rfl
      | some p => rfl
  · rw [if_neg hpar, if_neg hpar]
    rfl

theorem lwPass_nil_ev (rng : Nat → ℚ) (l : List BooleanVariableNode)
    (w : ℚ) (st : SimpleState) :
    lwPass rng [] l ⟨st.sample_vals, w, st.idx⟩ =
      (simplePass rng l st).map fun s => ⟨s.sample_vals, w, s.idx⟩ := by
  induction l generalizing st with
  | nil => rfl
  | cons node rest ih =>
    simp only [lwPass, simplePass, lwStep_nil_ev]
    cases hstep : simpleStep rng node st with
    | error e => rfl
    | ok st1 =>
      simp only [Except.map_ok]
      exact ih st1

theorem lwLoop_nil_ev (rng : Nat → ℚ) (nodes : List BooleanVariableNode)
    (fuel : Nat) (w : ℚ) (st : SimpleState) :
    lwLoop rng [] nodes fuel ⟨st.sample_vals, w, st.idx⟩ =
      (simpleLoop rng nodes fuel st).map fun s => ⟨s.sample_vals, w, s.idx⟩ := by
  induction fuel generalizing st with
  | zero =>
    simp only [lwLoop, simpleLoop]
    by_cases hlt : st.sample_vals.length < nodes.length
    · rw [if_pos hlt, if_pos hlt]
      rfl
    · rw [if_neg hlt, if_neg hlt]
      rfl
  | succ f ih =>
    simp only [lwLoop, simpleLoop]
    by_cases hlt : st.sample_vals.length < nodes.length
    · rw [if_pos hlt, if_pos hlt, lwPass_nil_ev]
      cases hpass : simplePass rng nodes st with
      | error e => rfl
      | ok st1 =>
        simp only [Except.map_ok]
        exact ih st1
    · rw [if_neg hlt, if_neg hlt]
      rfl

theorem lw_generate_sample_nil_ev (rng : Nat → ℚ)
    (nodes : List BooleanVariableNode) (fuel i0 : Nat) :
    LikelihoodWeightingSampler.generate_sample rng nodes fuel [] i0 =
      (SimpleSampler.generate_sample rng nodes fuel i0).map
        fun s => ⟨s.sample_vals, 1, s.idx⟩ :=
  lwLoop_nil_ev rng nodes fuel 1 ⟨[], i0⟩

/-! ## Consequences for the unconditioned sampler -/

/-- The invariant holds of the loop's initial state. -/
theorem lwInv_init (nodes : List BooleanVariableNode) (ev : Dict) (w : ℚ)
    (i0 : Nat) : LwInv nodes ev ⟨[], w, i0⟩ := by
  refine ⟨List.nodup_nil, ?_, ?_⟩
  · intro k hk
    cases hk
  · intro k v _
    exact Or.inl rfl

/-- Every key of a produced unconditioned sample names a network node. -/
theorem simple_sample_keys (rng : Nat → ℚ) (nodes : List BooleanVariableNode)
    (fuel i0 : Nat) (st : SimpleState)
    (h : SimpleSampler.generate_sample rng nodes fuel i0 = .ok st) :
    ∀ k ∈ dictKeys st.sample_vals, k ∈ nodes.map (·.target) := by
  have hlw : LikelihoodWeightingSampler.generate_sample rng nodes fuel [] i0 =
      .ok ⟨st.sample_vals, 1, st.idx⟩ := by
    rw [lw_generate_sample_nil_ev, h]
    rfl
  have hinv := lwLoop_inv rng [] nodes fuel ⟨[], 1, i0⟩
    ⟨st.sample_vals, 1, st.idx⟩ hlw (lwInv_init nodes [] 1 i0)
  exact hinv.keysSub

/-- A successful batch of unconditioned samples has exactly `n` entries. -/
theorem simple_samples_length (rng : Nat → ℚ)
    (nodes : List BooleanVariableNode) (fuel : Nat) :
    ∀ (n i0 : Nat) (out : List Dict) (iF : Nat),
      SimpleSampler.generate_samples rng nodes fuel n i0 = .ok (out, iF) →
      out.length = n := by
  intro n
  induction n with
  | zero =>
    intro i0 out iF h
    cases h
    rfl
  | succ m ih =>
    intro i0 out iF h
    simp only [SimpleSampler.generate_samples] at h
    split at h
    · exact Except.noConfusion h
    · rename_i st hst
      split at h
      · exact Except.noConfusion h
      · rename_i rest iFin hpr
        cases h
        simp [ih _ _ _ hpr]

/-- Every key of every sample of a successful batch names a network node. -/
theorem simple_samples_keys (rng : Nat → ℚ)
    (nodes : List BooleanVariableNode) (fuel : Nat) :
    ∀ (n i0 : Nat) (out : List Dict) (iF : Nat),
      SimpleSampler.generate_samples rng nodes fuel n i0 = .ok (out, iF) →
      ∀ s ∈ out, ∀ k ∈ dictKeys s, k ∈ nodes.map (·.target) := by
  intro n
  induction n with
  | zero =>
    intro i0 out iF h
    cases h
    intro s hs
    cases hs
  | succ m ih =>
    intro i0 out iF h
    simp only [SimpleSampler.generate_samples] at h
    split at h
    · exact Except.noConfusion h
    · rename_i st hst
      split at h
      · exact Except.noConfusion h
      · rename_i rest iFin hpr
        cases h
        intro s hs
        rcases List.mem_cons.mp hs with rfl | hs'
        · exact simple_sample_keys rng nodes fuel i0 st hst
        · exact ih _ _ _ hpr s hs'

/-! ## The estimators' counting loops as sums -/

/-- Sum of the weights of a batch of weighted samples (`count2` at the end
of the accumulation loop). -/
def totalWeight (samples : List (Dict × ℚ)) : ℚ :=
  (samples.map Prod.snd).sum

/-- Sum of the weights of the samples matching the query (`count` at the end
of the accumulation loop): `Σ weight_i · match_i(query)`. -/
def matchWeight (query : Dict) (samples : List (Dict × ℚ)) : ℚ :=
  ((samples.filter fun ts => queryMatches query ts.1).map Prod.snd).sum

theorem countLoop_aux (query : Dict) (samples : List Dict) :
    ∀ c : Nat,
      samples.foldl (fun c s => if queryMatches query s then c + 1 else c) c =
        c + (samples.filter fun s => queryMatches query s).length := by
  induction samples with
  | nil =>
    intro c
    simp
  | cons s rest ih =>
    intro c
    simp only [List.foldl_cons, List.filter_cons]
    by_cases hq : queryMatches query s = true
    · rw [if_pos hq, if_pos hq, ih]
      simp only [List.length_cons]
      omega
    · rw [if_neg hq, if_neg hq, ih]

/-- The source's counting loop counts exactly the matching samples. -/
theorem countLoop_eq (query : Dict) (samples : List Dict) :
    countLoop query samples =
      (samples.filter fun s => queryMatches query s).length := by
  simpa using countLoop_aux query samples 0

theorem lwCountLoop_aux (query : Dict) (samples : List (Dict × ℚ)) :
    ∀ c : ℚ × ℚ,
      samples.foldl
        (fun acc ts =>
          (if queryMatches query ts.1 then acc.1 + ts.2 else acc.1,
           acc.2 + ts.2)) c =
        (c.1 + matchWeight query samples, c.2 + totalWeight samples) := by
  induction samples with
  | nil =>
    intro c
    simp [matchWeight, totalWeight]
  | cons ts rest ih =>
    intro c
    obtain ⟨c1, c2⟩ := c
    simp only [List.foldl_cons]
    rw [ih]
    by_cases hq : queryMatches query ts.1 = true
    · simp only [if_pos hq, matchWeight, totalWeight, List.filter_cons,
        List.map_cons, List.sum_cons, Prod.mk.injEq]
      constructor <;> ring
    · simp only [if_neg hq, matchWeight, totalWeight, List.filter_cons,
        List.map_cons, List.sum_cons, Prod.mk.injEq]
      constructor <;> ring

/-- The source's weighted accumulation loop computes
`(Σ weight_i · match_i, Σ weight_i)`. -/
theorem lwCountLoop_eq (query : Dict) (samples : List (Dict × ℚ)) :
    lwCountLoop query samples =
      (matchWeight query samples, totalWeight samples) := by
  have h := lwCountLoop_aux query samples (0, 0)
  simpa [lwCountLoop] using h

/-- A successful batch of weighted samples has exactly `n` entries. -/
theorem lw_samples_length (rng : Nat → ℚ) (nodes : List BooleanVariableNode)
    (fuel : Nat) (ev : Dict) :
    ∀ (n i0 : Nat) (out : List (Dict × ℚ)) (iF : Nat),
      LikelihoodWeightingSampler.generate_samples rng nodes fuel ev n i0 =
        .ok (out, iF) → out.length = n := by
  intro n
  induction n with
  | zero =>
    intro i0 out iF h
    cases h
    rfl
  | succ m ih =>
    intro i0 out iF h
    simp only [LikelihoodWeightingSampler.generate_samples] at h
    split at h
    · exact Except.noConfusion h
    · rename_i st hst
      split at h
      · exact Except.noConfusion h
      · rename_i rest iFin hpr
        cases h
        simp [ih _ _ _ hpr]

/-- Association-list lookup over string keys returns a stored pair. -/
theorem dict_lookup_mem (d : Dict) (k : String) (v : Bool)
    (h : d.lookup k = some v) : (k, v) ∈ d := by
  induction d with
  | nil => simp [List.lookup] at h
  | cons kv rest ih =>
    rw [List.lookup_cons] at h
    cases hk : (k == kv.1) with
    | true =>
      rw [hk] at h
      cases h
      have hkk : k = kv.1 := by simpa using hk
      subst hkk
      exact List.mem_cons_self _ _
    | false =>
      rw [hk] at h
      exact List.mem_cons_of_mem _ (ih h)

/-! ## Enumerating parent-value combinations (to discharge CPT totality on
concrete networks) -/

/-- All boolean lists of the given length. -/
def allBoolLists : Nat → List (List Bool)
  | 0 => [[]]
  | n + 1 =>
    ((allBoolLists n).map fun bs => true :: bs) ++
      ((allBoolLists n).map fun bs => false :: bs)

theorem mem_allBoolLists (n : Nat) :
    ∀ bs : List Bool, bs ∈ allBoolLists n ↔ bs.length = n := by
  induction n with
  | zero =>
    intro bs
    cases bs <;> simp [allBoolLists]
  | succ m ih =>
    intro bs
    cases bs with
    | nil =>
      simp only [allBoolLists, List.mem_append, List.mem_map]
      constructor
      · rintro (⟨a, -, h⟩ | ⟨a, -, h⟩) <;> exact List.noConfusion h
      · intro h
        exact absurd h (by simp)
    | cons b rest =>
      simp only [allBoolLists, List.mem_append, List.mem_map,
        List.length_cons]
      constructor
      · rintro (⟨a, ha, h⟩ | ⟨a, ha, h⟩) <;>
          (cases h; rw [(ih _).mp ha])
      · intro h
        have hr : rest.length = m := by omega
        cases b
        · exact Or.inr ⟨rest, (ih rest).mpr hr, rfl⟩
        · exact Or.inl ⟨rest, (ih rest).mpr hr, rfl⟩

/-- Checking the finitely many combinations suffices for CPT totality. -/
theorem cptTotal_of_all (node : BooleanVariableNode)
    (h : ((allBoolLists node.parents.length).all
      fun bs => (node.cpt.lookup bs).isSome) = true) :
    ∀ bs : List Bool, bs.length = node.parents.length →
      (node.cpt.lookup bs).isSome = true := by
  intro bs hlen
  rw [List.all_eq_true] at h
  exact h bs ((mem_allBoolLists _ bs).mpr hlen)

/-! ## Concrete networks and random streams for evaluations -/

/-- Parentless node `E` with `P(E)=1/2`. -/
def demoE : BooleanVariableNode := ⟨"E", [], [([], 1/2)]⟩

/-- Node `F` with parent `E`, `P(F|E)=9/10`, `P(F|¬E)=1/10`. -/
def demoF : BooleanVariableNode :=
  ⟨"F", ["E"], [([true], 9/10), ([false], 1/10)]⟩

/-- Deterministic random stream: draws `3/4`, then `1/2`, then `0` forever. -/
def rngDemo : Nat → ℚ := fun i => if i = 0 then 3/4 else if i = 1 then 1/2 else 0

/-- The fever network of the source's `__main__` block (probabilities as
exact rationals). -/
def feverNodes : List BooleanVariableNode :=
  [⟨"E", [], [([], 1/4)]⟩,
   ⟨"F", ["E"], [([true], 1/2), ([false], 1/10)]⟩,
   ⟨"A", ["F"], [([true], 7/8), ([false], 1/4)]⟩,
   ⟨"T", ["F"], [([true], 3/4), ([false], 1/16)]⟩]

/-- A topological rank witnessing that the fever network is acyclic. -/
def feverRank : String → Nat :=
  fun s => if s = "E" then 0 else if s = "F" then 1 else 2

/-! ## The claims -/

/-- C1: evaluation of the code at the failing input.  On the two-node network
`[F, E]` (child listed first, a legal input the spec's resolution order is
meant to tolerate) the finished sample is complete, but the final draw index
is `3`: three Bernoulli draws were consumed for two nodes, so one node's
value (`E`) was drawn twice during the production of a single sample — the
guard `node not in sample_vals` compares the node object against the dict's
string keys and never detects the earlier draw.  Moreover `F`'s stored value
was drawn against `E`'s first value `false`, which the redraw then
overwrote with `true`, so `F`'s value is not a draw against the CPT entry
for the parent value remaining in the finished sample. -/
theorem c1_node_drawn_twice :
    SimpleSampler.generate_sample rngDemo [demoF, demoE] 2 0 =
      .ok ⟨[("E", true), ("F", false)], 3⟩ ∧
    [demoF, demoE].length = 2 := by
  constructor
  · norm_num [SimpleSampler.generate_sample, simpleLoop, simplePass,
      simpleStep, demoE, demoF, rngDemo, dictInsert, dictMem,
      allParentsAssigned, parentVals, drawValue, node_not_in_sample,
      strEqNode, BooleanVariableNode.get_prob_true, List.lookup]
    decide
  · rfl

/-- C2: evaluation of the code at the failing input.  With evidence
`{E: true}` on the network `[F, E]`, node `E` goes through the evidence
branch on both passes, so the returned weight is `P(E)·P(E) = 1/4`: the
single evidence variable `E` contributes two likelihood factors to the
product instead of exactly one (`P(E) = 1/2`). -/
theorem c2_evidence_factor_applied_twice :
    LikelihoodWeightingSampler.generate_sample rngDemo [demoF, demoE] 2
        [("E", true)] 0 =
      .ok ⟨[("E", true), ("F", true)], 1/4, 1⟩ ∧
    (1/4 : ℚ) ≠ 1/2 := by
  constructor
  · norm_num [LikelihoodWeightingSampler.generate_sample, lwLoop, lwPass,
      lwStep, demoE, demoF, rngDemo, dictInsert, dictMem,
      allParentsAssigned, parentVals, drawValue, node_not_in_sample,
      strEqNode, BooleanVariableNode.get_prob_true,
      BooleanVariableNode.get_prob_false, List.lookup,
      show ("F" == "E") = false from by decide,
      show ("E" == "E") = true from by decide]
    simp
  · norm_num

/-- C3: `LikelihoodWeightingSampler.get_prob` returns
`Σ weight_i · match_i(query) / Σ weight_i` over the `n` generated weighted
samples (each evidence-matching sample contributes its weight to the
numerator, every sample contributes to the denominator), and it fails with
the division-undefined error exactly when the total weight is `0`. -/
theorem c3_lw_get_prob_is_weighted_ratio (rng : Nat → ℚ)
    (nodes : List BooleanVariableNode) (fuel : Nat) (query ev : Dict)
    (n i0 : Nat) (samples : List (Dict × ℚ)) (iF : Nat)
    (h : LikelihoodWeightingSampler.generate_samples rng nodes fuel ev n i0 =
      .ok (samples, iF)) :
    samples.length = n ∧
    LikelihoodWeightingSampler.get_prob rng nodes fuel query ev n i0 =
      (if totalWeight samples = 0 then .error .zeroDivision
       else .ok (matchWeight query samples / totalWeight samples)) := by
  refine ⟨lw_samples_length rng nodes fuel ev n i0 samples iF h, ?_⟩
  have hunf : LikelihoodWeightingSampler.get_prob rng nodes fuel query ev
      n i0 =
      (if (lwCountLoop query samples).2 = 0 then .error .zeroDivision
       else .ok ((lwCountLoop query samples).1 /
         (lwCountLoop query samples).2)) := by
    unfold LikelihoodWeightingSampler.get_prob
    rw [h]
  rw [hunf, lwCountLoop_eq]

/-- C4: `RejectionSampler.get_prob` returns `matchCount / survivingCount`,
where the surviving samples are exactly those of the `n` forward samples
agreeing with every evidence entry and `matchCount` counts the surviving
samples agreeing with every query entry; it fails with the
division-undefined error exactly when no samples survive the filter. -/
theorem c4_rejection_get_prob_is_ratio (rng : Nat → ℚ)
    (nodes : List BooleanVariableNode) (fuel : Nat) (query ev : Dict)
    (n i0 : Nat) (raw : List Dict) (iF : Nat)
    (h : SimpleSampler.generate_samples rng nodes fuel n i0 = .ok (raw, iF)) :
    raw.length = n ∧
    RejectionSampler.get_prob rng nodes fuel query ev n i0 =
      (if (raw.filter fun s => evMatches ev s).length = 0 then
        .error .zeroDivision
       else
        .ok ((((raw.filter fun s => evMatches ev s).filter
            fun s => queryMatches query s).length : ℚ) /
          ((raw.filter fun s => evMatches ev s).length : ℚ))) := by
  refine ⟨simple_samples_length rng nodes fuel n i0 raw iF h, ?_⟩
  have hgen : RejectionSampler.generate_samples rng nodes fuel n ev i0 =
      .ok (raw.filter fun s => evMatches ev s, iF) := by
    unfold RejectionSampler.generate_samples
    rw [h]
  have hunf : RejectionSampler.get_prob rng nodes fuel query ev n i0 =
      (if (raw.filter fun s => evMatches ev s).length = 0 then
        .error .zeroDivision
       else
        .ok ((countLoop query (raw.filter fun s => evMatches ev s) : ℚ) /
          ((raw.filter fun s => evMatches ev s).length : ℚ))) := by
    unfold RejectionSampler.get_prob
    rw [hgen]
  rw [hunf, countLoop_eq]

/-- C5: every sample returned by `RejectionSampler.generate_samples(n,
evidence)` satisfies every evidence entry — its stored value for each
evidence variable is exactly the evidence value — and at most `n` samples
are returned. -/
theorem c5_rejection_samples_satisfy_evidence (rng : Nat → ℚ)
    (nodes : List BooleanVariableNode) (fuel n : Nat) (ev : Dict) (i0 : Nat)
    (kept : List Dict) (iF : Nat)
    (h : RejectionSampler.generate_samples rng nodes fuel n ev i0 =
      .ok (kept, iF)) :
    (∀ s ∈ kept, ∀ kv ∈ ev, s.lookup kv.1 = some kv.2) ∧ kept.length ≤ n := by
  unfold RejectionSampler.generate_samples at h
  split at h
  · exact Except.noConfusion h
  · rename_i raw iFin hraw
    cases h
    constructor
    · intro s hs kv hkv
      have hall := (List.mem_filter.mp hs).2
      rw [evMatches, List.all_eq_true] at hall
      have h2 := hall kv hkv
      simp only [] at h2
      cases hls : s.lookup kv.1 with
      | none =>
        rw [hls] at h2
        exact Bool.noConfusion h2
      | some b =>
        rw [hls] at h2
        have hb : (b == kv.2) = true := h2
        rw [eq_of_beq hb]
    · have hlen := simple_samples_length rng nodes fuel n i0 raw iF hraw
      calc (raw.filter fun s => evMatches ev s).length
          ≤ raw.length := List.length_filter_le _ _
        _ = n := hlen

/-- C6: every weighted sample produced with evidence whose variables appear
in the network assigns each evidence variable exactly its forced evidence
value, and the returned weight is strictly positive whenever every CPT entry
lies strictly in `(0,1)`. -/
theorem c6_lw_sample_forces_evidence (rng : Nat → ℚ)
    (nodes : List BooleanVariableNode) (fuel : Nat) (ev : Dict) (i0 : Nat)
    (st : LwState)
    (h : LikelihoodWeightingSampler.generate_sample rng nodes fuel ev i0 =
      .ok st) :
    (∀ var val, ev.lookup var = some val → var ∈ nodes.map (·.target) →
      st.sample_vals.lookup var = some val) ∧
    ((∀ node ∈ nodes, ∀ e ∈ node.cpt, 0 < e.2 ∧ e.2 < 1) → 0 < st.weight) := by
  have hinv := lwLoop_inv rng ev nodes fuel ⟨[], 1, i0⟩ st h
    (lwInv_init nodes ev 1 i0)
  have hlen := lwLoop_ok_length rng ev nodes fuel ⟨[], 1, i0⟩ st h
  constructor
  · intro var val hev hvar
    obtain ⟨node0, hn0, hn0t⟩ := List.mem_map.mp hvar
    have hass := targets_assigned_of_complete nodes st.sample_vals hinv.nodup
      hinv.keysSub hlen node0 hn0
    rw [hn0t] at hass
    have hsome := (lookup_isSome_iff_mem _ _).mpr hass
    rcases hinv.evRespect var val hev with hnone | hval
    · rw [hnone] at hsome
      exact Bool.noConfusion hsome
    · exact hval
  · intro hcpt
    exact lwLoop_weight_pos rng ev nodes fuel ⟨[], 1, i0⟩ st h hcpt
      (by norm_num)

/-- C7: on any network with unique node names whose parent references point
into the node list, whose dependency relation admits a topological rank
(acyclicity), and whose CPTs have an entry for every parent-value
combination, the forward-sampling resolution loop terminates within
`|nodes|` full passes over the node list — both in its unconditioned form
and in the evidence-forcing form, for any evidence. -/
theorem c7_forward_loop_terminates (rng : Nat → ℚ)
    (nodes : List BooleanVariableNode) (ev : Dict) (i0 : Nat)
    (rank : String → Nat)
    (htN : (nodes.map (·.target)).Nodup)
    (hpar : ∀ node ∈ nodes, ∀ p ∈ node.parents, p ∈ nodes.map (·.target))
    (hrank : ∀ node ∈ nodes, ∀ p ∈ node.parents, rank p < rank node.target)
    (hcpt : ∀ node ∈ nodes, ∀ bs : List Bool,
      bs.length = node.parents.length → (node.cpt.lookup bs).isSome = true) :
    (∃ st, SimpleSampler.generate_sample rng nodes nodes.length i0 = .ok st) ∧
    (∃ st, LikelihoodWeightingSampler.generate_sample rng nodes nodes.length
      ev i0 = .ok st) := by
  have hlw : ∀ ev' : Dict,
      ∃ st, lwLoop rng ev' nodes nodes.length ⟨[], 1, i0⟩ = .ok st := by
    intro ev'
    exact lwLoop_ok rng ev' nodes rank hrank hpar hcpt htN nodes.length
      ⟨[], 1, i0⟩ (lwInv_init nodes ev' 1 i0) (by simp)
  constructor
  · cases hsimple : SimpleSampler.generate_sample rng nodes nodes.length i0
      with
    | ok st => exact ⟨st, rfl⟩
    | error e =>
      obtain ⟨st, hst⟩ := hlw []
      have herr : LikelihoodWeightingSampler.generate_sample rng nodes
          nodes.length [] i0 = .error e := by
        rw [lw_generate_sample_nil_ev, hsimple]
        rfl
      unfold LikelihoodWeightingSampler.generate_sample at herr
      rw [hst] at herr
      exact Except.noConfusion herr
  · obtain ⟨st, hst⟩ := hlw ev
    exact ⟨st, hst⟩

/-- C8: `get_prob_true` on a parent-value combination absent from the CPT
yields the key-not-found failure rather than a value, and on a network whose
(parentless) node has no CPT entry the failure propagates all the way out of
the estimation call `get_prob`. -/
theorem c8_missing_cpt_key_propagates (rng : Nat → ℚ)
    (node : BooleanVariableNode) (pv : List Bool) (fuel i0 n : Nat)
    (query : Dict)
    (hpv : node.cpt.lookup pv = none)
    (hpar : node.parents = [])
    (h0 : node.cpt.lookup [] = none) :
    node.get_prob_true pv = none ∧
    SimpleSampler.get_prob rng [node] (fuel + 1) query (n + 1) i0 =
      .error .keyNotFound := by
  refine ⟨hpv, ?_⟩
  have hstep : simpleStep rng node ⟨[], i0⟩ = .error .keyNotFound := by
    unfold simpleStep
    simp [node_not_in_sample_eq_true, hpar, allParentsAssigned, parentVals,
      BooleanVariableNode.get_prob_true, h0]
  have hsample : SimpleSampler.generate_sample rng [node] (fuel + 1) i0 =
      .error .keyNotFound := by
    unfold SimpleSampler.generate_sample
    simp only [simpleLoop]
    rw [if_pos (by simp)]
    simp only [simplePass]
    rw [hstep]
  have hsamples : SimpleSampler.generate_samples rng [node] (fuel + 1)
      (n + 1) i0 = .error .keyNotFound := by
    simp only [SimpleSampler.generate_samples]
    rw [hsample]
  unfold SimpleSampler.get_prob
  rw [hsamples]

/-- C9: `get_prob_false` is exactly `1 - get_prob_true` at every
parent-value sequence on which `get_prob_true` is defined; it stores nothing
of its own. -/
theorem c9_prob_false_is_one_minus_prob_true (node : BooleanVariableNode)
    (pv : List Bool) (p : ℚ) (h : node.get_prob_true pv = some p) :
    node.get_prob_false pv = some (1 - p) := by
  rw [BooleanVariableNode.get_prob_false, h]
  rfl

/-- C10: with an evidence mapping naming a variable that no node of the
network carries, every forward sample is rejected (the sample's lookup of
the unknown variable yields no boolean, which equals no evidence value), so
`RejectionSampler.generate_samples` returns the empty sequence and
`RejectionSampler.get_prob` fails with the division-undefined error for
every query. -/
theorem c10_unknown_evidence_rejects_all (rng : Nat → ℚ)
    (nodes : List BooleanVariableNode) (fuel n i0 : Nat) (ev query : Dict)
    (u : String) (val : Bool) (raw : List Dict) (iF : Nat)
    (hu : ev.lookup u = some val) (hun : u ∉ nodes.map (·.target))
    (h : SimpleSampler.generate_samples rng nodes fuel n i0 = .ok (raw, iF)) :
    RejectionSampler.generate_samples rng nodes fuel n ev i0 = .ok ([], iF) ∧
    RejectionSampler.get_prob rng nodes fuel query ev n i0 =
      .error .zeroDivision := by
  have hfilter : raw.filter (fun s => evMatches ev s) = [] := by
    rw [List.filter_eq_nil_iff]
    intro s hs hall
    have hsl : s.lookup u = none := by
      rw [lookup_eq_none_iff_not_mem]
      intro hmem
      exact hun (simple_samples_keys rng nodes fuel n i0 raw iF h s hs u hmem)
    rw [evMatches, List.all_eq_true] at hall
    have h2 := hall (u, val) (dict_lookup_mem ev u val hu)
    simp only [] at h2
    rw [hsl] at h2
    exact Bool.noConfusion h2
  have hgen : RejectionSampler.generate_samples rng nodes fuel n ev i0 =
      .ok ([], iF) := by
    unfold RejectionSampler.generate_samples
    rw [h]
    show Except.ok (raw.filter fun s => evMatches ev s, iF) = .ok ([], iF)
    rw [hfilter]
  refine ⟨hgen, ?_⟩
  unfold RejectionSampler.get_prob
  rw [hgen]
  rfl

/-! ## Concrete evaluations used by the witnesses -/

/-- One unconditioned sample of the one-node network: `E` drawn `false`
(`3/4 ≥ 1/2`), one draw consumed. -/
theorem demo_simple_samples_eval :
    SimpleSampler.generate_samples rngDemo [demoE] 1 1 0 =
      .ok ([[("E", false)]], 1) := by
  norm_num [SimpleSampler.generate_samples, SimpleSampler.generate_sample,
    simpleLoop, simplePass, simpleStep, demoE, rngDemo, dictInsert, dictMem,
    allParentsAssigned, parentVals, drawValue, node_not_in_sample, strEqNode,
    BooleanVariableNode.get_prob_true, List.lookup]

/-- One weighted sample of the one-node network under evidence `{E: true}`:
`E` forced to `true`, weight `P(E) = 1/2`, no draw consumed. -/
theorem demo_lw_sample_eval :
    LikelihoodWeightingSampler.generate_sample rngDemo [demoE] 1
        [("E", true)] 0 =
      .ok ⟨[("E", true)], 1/2, 0⟩ := by
  norm_num [LikelihoodWeightingSampler.generate_sample, lwLoop, lwPass,
    lwStep, demoE, rngDemo, dictInsert, dictMem, allParentsAssigned,
    parentVals, drawValue, node_not_in_sample, strEqNode,
    BooleanVariableNode.get_prob_true, BooleanVariableNode.get_prob_false,
    List.lookup, show ("E" == "E") = true from by decide]

/-- One weighted sample of the one-node network with no evidence: `E` drawn
`false`, weight `1`. -/
theorem demo_lw_samples_eval :
    LikelihoodWeightingSampler.generate_samples rngDemo [demoE] 1 [] 1 0 =
      .ok ([([("E", false)], 1)], 1) := by
  norm_num [LikelihoodWeightingSampler.generate_samples,
    LikelihoodWeightingSampler.generate_sample, lwLoop, lwPass, lwStep,
    demoE, rngDemo, dictInsert, dictMem, allParentsAssigned, parentVals,
    drawValue, node_not_in_sample, strEqNode,
    BooleanVariableNode.get_prob_true, List.lookup]

/-! ## Witnesses -/

/-- C3 witness: the weighted-ratio formula at one concrete batch. -/
theorem c3_witness :
    ([([("E", false)], (1 : ℚ))] : List (Dict × ℚ)).length = 1 ∧
    LikelihoodWeightingSampler.get_prob rngDemo [demoE] 1 [("E", true)] []
        1 0 =
      (if totalWeight [([("E", false)], 1)] = 0 then .error .zeroDivision
       else .ok (matchWeight [("E", true)] [([("E", false)], 1)] /
         totalWeight [([("E", false)], 1)])) :=
  c3_lw_get_prob_is_weighted_ratio rngDemo [demoE] 1 [("E", true)] [] 1 0
    [([("E", false)], 1)] 1 demo_lw_samples_eval

/-- C4 witness: the counting-ratio formula at one concrete batch. -/
theorem c4_witness :
    ([[("E", false)]] : List Dict).length = 1 ∧
    RejectionSampler.get_prob rngDemo [demoE] 1 [("E", true)] [("E", false)]
        1 0 =
      (if (([[("E", false)]] : List Dict).filter
            fun s => evMatches [("E", false)] s).length = 0 then
        .error .zeroDivision
       else
        .ok ((((([[("E", false)]] : List Dict).filter
              fun s => evMatches [("E", false)] s).filter
            fun s => queryMatches [("E", true)] s).length : ℚ) /
          ((([[("E", false)]] : List Dict).filter
              fun s => evMatches [("E", false)] s).length : ℚ))) :=
  c4_rejection_get_prob_is_ratio rngDemo [demoE] 1 [("E", true)]
    [("E", false)] 1 0 [[("E", false)]] 1 demo_simple_samples_eval

/-- C5 witness: one surviving sample, satisfying the evidence. -/
theorem c5_witness :
    (∀ s ∈ ([[("E", false)]] : List Dict), ∀ kv ∈ ([("E", false)] : Dict),
      s.lookup kv.1 = some kv.2) ∧
    ([[("E", false)]] : List Dict).length ≤ 1 := by
  have h : RejectionSampler.generate_samples rngDemo [demoE] 1 1
      [("E", false)] 0 = .ok ([[("E", false)]], 1) := by
    unfold RejectionSampler.generate_samples
    rw [demo_simple_samples_eval]
    show Except.ok
        (([[("E", false)]] : List Dict).filter
          fun s => evMatches [("E", false)] s, 1) =
      .ok ([[("E", false)]], 1)
    decide
  exact c5_rejection_samples_satisfy_evidence rngDemo [demoE] 1 1
    [("E", false)] 0 [[("E", false)]] 1 h

/-- C6 witness: the forced evidence value and the positive weight at one
concrete weighted sample. -/
theorem c6_witness :
    (∀ var val, ([("E", true)] : Dict).lookup var = some val →
      var ∈ [demoE].map (·.target) →
      (⟨[("E", true)], 1/2, 0⟩ : LwState).sample_vals.lookup var = some val) ∧
    ((∀ node ∈ [demoE], ∀ e ∈ node.cpt, 0 < e.2 ∧ e.2 < 1) →
      0 < (⟨[("E", true)], 1/2, 0⟩ : LwState).weight) :=
  c6_lw_sample_forces_evidence rngDemo [demoE] 1 [("E", true)] 0
    ⟨[("E", true)], 1/2, 0⟩ demo_lw_sample_eval

/-- C7 witness: the fever network of the source terminates within four
passes, unconditioned and under evidence `{A: true}`. -/
theorem c7_witness :
    (∃ st, SimpleSampler.generate_sample rngDemo feverNodes
      feverNodes.length 0 = .ok st) ∧
    (∃ st, LikelihoodWeightingSampler.generate_sample rngDemo feverNodes
      feverNodes.length [("A", true)] 0 = .ok st) := by
  refine c7_forward_loop_terminates rngDemo feverNodes [("A", true)] 0
    feverRank ?_ ?_ ?_ ?_
  · decide
  · decide
  · decide
  · intro node hn
    fin_cases hn <;> exact cptTotal_of_all _ (by decide)

/-- C8 witness: a parentless node with an empty CPT fails the lookup and the
whole estimation call. -/
theorem c8_witness :
    (⟨"X", [], []⟩ : BooleanVariableNode).get_prob_true [true] = none ∧
    SimpleSampler.get_prob rngDemo [⟨"X", [], []⟩] 1 [("X", true)] 1 0 =
      .error .keyNotFound :=
  c8_missing_cpt_key_propagates rngDemo ⟨"X", [], []⟩ [true] 0 0 0
    [("X", true)] rfl rfl rfl

/-- C9 witness: the complement at the parentless node `E`. -/
theorem c9_witness : demoE.get_prob_false [] = some (1 - 1/2) :=
  c9_prob_false_is_one_minus_prob_true demoE [] (1/2) rfl

/-- C10 witness: evidence naming the unknown variable `Z` rejects the whole
batch and the estimation call reports the division failure. -/
theorem c10_witness :
    RejectionSampler.generate_samples rngDemo [demoE] 1 1 [("Z", true)] 0 =
      .ok ([], 1) ∧
    RejectionSampler.get_prob rngDemo [demoE] 1 [("E", true)] [("Z", true)]
        1 0 =
      .error .zeroDivision :=
  c10_unknown_evidence_rejects_all rngDemo [demoE] 1 1 0 [("Z", true)]
    [("E", true)] "Z" true [[("E", false)]] 1 rfl (by decide)
    demo_simple_samples_eval

end BayesFever
